import Mathlib

/-!
# Verification of the `rust_slice_sampler` univariate slice samplers

Shallow embedding of the four sampling procedures of the repository:

* `slice_sampler_stepping_out`                          (src/lib.rs)
* `univariate_slice_sampler_stepping_out_and_shrinkage` (src/univariate/stepping_out.rs)
* `univariate_slice_sampler_doubling_and_shrinkage`     (src/univariate/doubling.rs)
* `univariate_slice_sampler_shrinkage`                  (src/univariate/shrinkage.rs)

`f64` values are modelled as rationals (`ℚ`), exact arithmetic.  The RNG
capability is modelled as the stream `us : ℕ → ℚ` of uniform draws consumed in
order (`fastrand::Rng::f64` returns values in `[0,1)`); the natural logarithm
used for log-scale targets is an opaque library routine and is therefore passed
in as a function parameter `lnFn`.  The target capability is a pure function
`f : ℚ → ℚ` together with the flag `onLogScale`.

The potentially non-terminating `while` loops (stepping out with
`max_number_of_steps == 0`, doubling with `max_number_of_doubles == 0`, the
shrinkage loops, and the doubling acceptance bisection) take explicit fuel and
return `none` when the fuel is exhausted; all bounded loops are structural.

The threaded `SamplerState` carries the RNG position and the evaluation
counter exactly as in the source, plus two ghost fields used only to state
properties: `evals`, the list of points passed to the target's `evaluate`
(one entry appended per call, mirroring `evaluation_counter += 1`), and
`brackets`, the bracket `(l, r)` recorded at the entry of every shrinkage
iteration, before the candidate draw.
-/

structure SamplerState where
  idx : ℕ
  count : ℕ
  evals : List ℚ
  brackets : List (ℚ × ℚ)
  deriving DecidableEq

/-- Initial per-call state: the RNG stream is at position 0 and
`let mut evaluation_counter = 0;`. -/
def initState : SamplerState := ⟨0, 0, [], []⟩

/-- `rng.f64()`: consume the next uniform draw from the stream. -/
def draw (us : ℕ → ℚ) (s : SamplerState) : ℚ × SamplerState :=
  (us s.idx, { s with idx := s.idx + 1 })

/-- `f_with_counter`: `evaluation_counter += 1; f.evaluate(x)`.  The ghost
field `evals` records the evaluated point. -/
def evalf (f : ℚ → ℚ) (z : ℚ) (s : SamplerState) : ℚ × SamplerState :=
  (f z, { s with count := s.count + 1, evals := s.evals ++ [z] })

/-- Ghost instrumentation: record the bracket at the entry of a shrinkage
iteration (before the candidate draw). -/
def pushBracket (l r : ℚ) (s : SamplerState) : SamplerState :=
  { s with brackets := s.brackets ++ [(l, r)] }

/-- `f64::MIN_POSITIVE` = 2^(-1022), the smallest positive normal `f64`. -/
def minPositive : ℚ := 1 / 2 ^ 1022

/-- `let w = if width <= 0.0 { f64::MIN_POSITIVE } else { width };` -/
def clampWidth (width : ℚ) : ℚ := if width ≤ 0 then minPositive else width

/-- Wrapping `u32` subtraction (`a - b` on `u32`, two's complement). -/
def u32Sub (a b : ℕ) : ℕ := (((a : ℤ) - (b : ℤ)) % (2 ^ 32)).toNat

/-- Rust `as u32` cast from `f64`: saturating conversion of the floor. -/
def ratAsU32 (q : ℚ) : ℕ := min (Int.floor q).toNat (2 ^ 32 - 1)

/-- `(u() * (max_number_of_steps as f64)).floor() as u32`: the number of
left steps drawn from the split of the budget. -/
def leftBudget (u : ℚ) (n : ℕ) : ℕ := ratAsU32 (u * (n : ℚ))

/-- The shrink update shared by all procedures:
`if x1 < x { l = x1 } else { r = x1 }`. -/
def shrinkStepBracket (x x1 l r : ℚ) : ℚ × ℚ :=
  if x1 < x then (x1, r) else (l, x1)

/-- Plain shrinkage loop (step 3 of stepping out, direct shrinkage):
`loop { x1 = l + u()*(r-l); if y < f(x1) { return x1 }; shrink }`. -/
def shrinkLoop (us : ℕ → ℚ) (f : ℚ → ℚ) (x y : ℚ) :
    ℕ → ℚ → ℚ → SamplerState → Option ℚ × SamplerState
  | 0, _, _, s => (none, s)
  | fuel + 1, l, r, s =>
    let s1 := pushBracket l r s
    let (u1, s2) := draw us s1
    let x1 := l + u1 * (r - l)
    let (fx1, s3) := evalf f x1 s2
    if y < fx1 then (some x1, s3)
    else
      let (l', r') := shrinkStepBracket x x1 l r
      shrinkLoop us f x y fuel l' r' s3

/-- `while y < f(l) { l -= w }` (stepping out, unbounded). -/
def stepLeftLoop (f : ℚ → ℚ) (y w : ℚ) :
    ℕ → ℚ → SamplerState → Option ℚ × SamplerState
  | 0, _, s => (none, s)
  | fuel + 1, l, s =>
    let (fl, s1) := evalf f l s
    if y < fl then stepLeftLoop f y w fuel (l - w) s1 else (some l, s1)

/-- `while y < f(r) { r += w }` (stepping out, unbounded). -/
def stepRightLoop (f : ℚ → ℚ) (y w : ℚ) :
    ℕ → ℚ → SamplerState → Option ℚ × SamplerState
  | 0, _, s => (none, s)
  | fuel + 1, r, s =>
    let (fr, s1) := evalf f r s
    if y < fr then stepRightLoop f y w fuel (r + w) s1 else (some r, s1)

/-- `while j > 0 && y < f(l) { l -= w; j -= 1 }` (short-circuit: when `j = 0`
the target is not evaluated). -/
def stepLeftBounded (f : ℚ → ℚ) (y w : ℚ) :
    ℕ → ℚ → SamplerState → ℚ × SamplerState
  | 0, l, s => (l, s)
  | j + 1, l, s =>
    let (fl, s1) := evalf f l s
    if y < fl then stepLeftBounded f y w j (l - w) s1 else (l, s1)

/-- `while k > 0 && y < f(r) { r += w; k -= 1 }`. -/
def stepRightBounded (f : ℚ → ℚ) (y w : ℚ) :
    ℕ → ℚ → SamplerState → ℚ × SamplerState
  | 0, r, s => (r, s)
  | k + 1, r, s =>
    let (fr, s1) := evalf f r s
    if y < fr then stepRightBounded f y w k (r + w) s1 else (r, s1)

/-- Loop body of the unbounded doubling branch (doubling.rs, lines 79-84):
`if v < 0.5 { l -= r - l } else { r -= r - l }`. -/
def doubleStepUnbounded (v l r : ℚ) : ℚ × ℚ :=
  if v < 1 / 2 then (l - (r - l), r) else (l, r - (r - l))

/-- `while y < f(l) && y < f(r)` doubling loop for `max_number_of_doubles == 0`
(short-circuit `&&`: `f(r)` is evaluated only when `y < f(l)`). -/
def doubleLoopUnbounded (us : ℕ → ℚ) (f : ℚ → ℚ) (y : ℚ) :
    ℕ → ℚ → ℚ → SamplerState → Option (ℚ × ℚ) × SamplerState
  | 0, _, _, s => (none, s)
  | fuel + 1, l, r, s =>
    let (fl, s1) := evalf f l s
    if y < fl then
      let (fr, s2) := evalf f r s1
      if y < fr then
        let (v, s3) := draw us s2
        let (l', r') := doubleStepUnbounded v l r
        doubleLoopUnbounded us f y fuel l' r' s3
      else (some (l, r), s2)
    else (some (l, r), s1)

/-- Loop body of the bounded doubling branch (doubling.rs, lines 91-98):
`if v < 0.5 { l -= r - l } else { r += r - l }`. -/
def doubleStepBounded (v l r : ℚ) : ℚ × ℚ :=
  if v < 1 / 2 then (l - (r - l), r) else (l, r + (r - l))

/-- `while k > 0 && (y < f(l) || y < f(r))` doubling loop for
`max_number_of_doubles >= 2` (short-circuit `||`: `f(r)` is evaluated only
when `y < f(l)` fails). -/
def doubleLoopBounded (us : ℕ → ℚ) (f : ℚ → ℚ) (y : ℚ) :
    ℕ → ℚ → ℚ → SamplerState → (ℚ × ℚ) × SamplerState
  | 0, l, r, s => ((l, r), s)
  | k + 1, l, r, s =>
    -- the short-circuit condition `y < f(l) || y < f(r)` made explicit so that the
    -- recursive call occurs once; evaluation order is unchanged
    let (fl, s1) := evalf f l s
    let (cont, s2) :=
      if y < fl then (true, s1)
      else
        let (fr, s2) := evalf f r s1
        (if y < fr then true else false, s2)
    if cont then
      let (v, s3) := draw us s2
      let (l', r') := doubleStepBounded v l r
      doubleLoopBounded us f y k l' r' s3
    else ((l, r), s2)

/-- The doubling acceptance test (doubling.rs, lines 107-125): bisect from
`(lp, rp)` while `rp - lp > 1.1 * w`, flag `d` when `x` and `x1` fall on
opposite sides of the midpoint, reject when `d` holds and both endpoints of
the narrowed bracket are at or below the slice (short-circuit `&&`: no
evaluation happens while `d` is false, and `f(rp)` is evaluated only when
`y >= f(lp)`).  Returns `some accept`. -/
def acceptLoop (f : ℚ → ℚ) (w x x1 y : ℚ) :
    ℕ → ℚ → ℚ → Bool → SamplerState → Option Bool × SamplerState
  | 0, _, _, _, s => (none, s)
  | fuel + 1, lp, rp, d, s =>
    if rp - lp > 11 / 10 * w then
      let m := (lp + rp) / 2
      let d' := if (x < m ∧ m ≤ x1) ∨ (m ≤ x ∧ x1 < m) then true else d
      let (lp', rp') := if x1 < m then (lp, m) else (m, rp)
      -- the short-circuit rejection test `d && y >= f(lp) && y >= f(rp)`
      -- made explicit so that the recursive call occurs once; the
      -- evaluation order is unchanged
      let (rejected, s') :=
        if d' then
          let (flp, s1) := evalf f lp' s
          if y < flp then (false, s1)
          else
            let (frp, s2) := evalf f rp' s1
            (if y < frp then false else true, s2)
        else (false, s)
      if rejected then (some false, s')
      else acceptLoop f w x x1 y fuel lp' rp' d' s'
    else (some true, s)

/-- Step 3 of the doubling procedure: the shrinkage loop whose acceptance test
is the reverse check.  As in the source, each acceptance attempt starts the
bisection from the current bracket `(l, r)` with `d = false`. -/
def doublingShrinkLoop (us : ℕ → ℚ) (f : ℚ → ℚ) (w x y : ℚ) (afuel : ℕ) :
    ℕ → ℚ → ℚ → SamplerState → Option ℚ × SamplerState
  | 0, _, _, s => (none, s)
  | fuel + 1, l, r, s =>
    let s1 := pushBracket l r s
    let (u1, s2) := draw us s1
    let x1 := l + u1 * (r - l)
    let (fx1, s3) := evalf f x1 s2
    -- `outcome = some res` means return `res`; `outcome = none` means fall
    -- through to the shrink step (plain rejection, or rejection by the
    -- reverse check).  This makes the recursive call occur once; the
    -- evaluation order is unchanged.
    let (outcome, s4) : Option (Option ℚ) × SamplerState :=
      if y < fx1 then
        match acceptLoop f w x x1 y afuel l r false s3 with
        | (none, s4) => (some none, s4)
        | (some accept, s4) =>
          if accept then (some (some x1), s4) else (none, s4)
      else (none, s3)
    match outcome with
    | some res => (res, s4)
    | none =>
      let (l', r') := shrinkStepBracket x x1 l r
      doublingShrinkLoop us f w x y afuel fuel l' r' s4

/-- Unbounded branch of step 2 of the stepping-out procedures, followed by
step 3. -/
def steppingUnbounded (us : ℕ → ℚ) (f : ℚ → ℚ) (x y w l r : ℚ)
    (s : SamplerState) (fuel : ℕ) : Option ℚ × SamplerState :=
  match stepLeftLoop f y w fuel l s with
  | (none, s1) => (none, s1)
  | (some l', s1) =>
    match stepRightLoop f y w fuel r s1 with
    | (none, s2) => (none, s2)
    | (some r', s2) => shrinkLoop us f x y fuel l' r' s2

/-- Bounded branch of step 2 of the stepping-out procedures (budget split
`j`/`k`), followed by step 3. -/
def steppingBounded (us : ℕ → ℚ) (f : ℚ → ℚ) (x y w : ℚ) (m : ℕ)
    (l r : ℚ) (s : SamplerState) (fuel : ℕ) : Option ℚ × SamplerState :=
  let (u3, s1) := draw us s
  let j := leftBudget u3 m
  let k := u32Sub (u32Sub m 1) j
  let (l', s2) := stepLeftBounded f y w j l s1
  let (r', s3) := stepRightBounded f y w k r s2
  shrinkLoop us f x y fuel l' r' s3

/-- Steps 2 and 3 of `univariate_slice_sampler_stepping_out_and_shrinkage`
(match on `max_number_of_steps`: `0` unbounded, `1` skip, otherwise bounded). -/
def steppingRestUniv (us : ℕ → ℚ) (f : ℚ → ℚ) (x y w : ℚ) (m : ℕ)
    (s : SamplerState) (fuel : ℕ) : Option ℚ × SamplerState :=
  let (u2, s1) := draw us s
  let l := x - u2 * w
  let r := l + w
  if m = 0 then steppingUnbounded us f x y w l r s1 fuel
  else if m = 1 then shrinkLoop us f x y fuel l r s1
  else steppingBounded us f x y w m l r s1 fuel

/-- Steps 2 and 3 of `slice_sampler_stepping_out` in lib.rs
(`if max_number_of_steps == 0 { ... } else { ... }`, no special case for 1). -/
def steppingRestLib (us : ℕ → ℚ) (f : ℚ → ℚ) (x y w : ℚ) (m : ℕ)
    (s : SamplerState) (fuel : ℕ) : Option ℚ × SamplerState :=
  let (u2, s1) := draw us s
  let l := x - u2 * w
  let r := l + w
  if m = 0 then steppingUnbounded us f x y w l r s1 fuel
  else steppingBounded us f x y w m l r s1 fuel

/-- Steps 2 and 3 of `univariate_slice_sampler_doubling_and_shrinkage`
(match on `max_number_of_doubles`: `0` unbounded, `1` skip, otherwise
bounded). -/
def doublingRest (us : ℕ → ℚ) (f : ℚ → ℚ) (x y w : ℚ) (md : ℕ)
    (s : SamplerState) (fuel : ℕ) : Option ℚ × SamplerState :=
  let (u2, s1) := draw us s
  let l := x - u2 * w
  let r := l + w
  if md = 0 then
    match doubleLoopUnbounded us f y fuel l r s1 with
    | (none, s2) => (none, s2)
    | (some (l', r'), s2) => doublingShrinkLoop us f w x y fuel fuel l' r' s2
  else if md = 1 then doublingShrinkLoop us f w x y fuel fuel l r s1
  else
    let ((l', r'), s2) := doubleLoopBounded us f y md l r s1
    doublingShrinkLoop us f w x y fuel fuel l' r' s2

/-- `univariate_slice_sampler_stepping_out_and_shrinkage`
(src/univariate/stepping_out.rs).  In step 1 the source evaluates `f(x)` and
then draws once in either branch, so the draw is hoisted out of the branch. -/
def univariate_slice_sampler_stepping_out_and_shrinkage
    (x : ℚ) (f : ℚ → ℚ) (onLogScale : Bool) (lnFn : ℚ → ℚ)
    (initial_width : ℚ) (max_number_of_steps : ℕ) (us : ℕ → ℚ) (fuel : ℕ) :
    Option ℚ × SamplerState :=
  let w := clampWidth initial_width
  let (fx, s1) := evalf f x initState
  let (u1, s2) := draw us s1
  let y := if onLogScale then lnFn u1 + fx else u1 * fx
  steppingRestUniv us f x y w max_number_of_steps s2 fuel

/-- `slice_sampler_stepping_out` (src/lib.rs).  In step 1 the source draws
`u` first and then evaluates `f(x)`. -/
def slice_sampler_stepping_out
    (x : ℚ) (f : ℚ → ℚ) (onLogScale : Bool) (lnFn : ℚ → ℚ)
    (width : ℚ) (max_number_of_steps : ℕ) (us : ℕ → ℚ) (fuel : ℕ) :
    Option ℚ × SamplerState :=
  let w := clampWidth width
  let (u1, s1) := draw us initState
  let (fx, s2) := evalf f x s1
  let y := if onLogScale then lnFn u1 + fx else u1 * fx
  steppingRestLib us f x y w max_number_of_steps s2 fuel

/-- `univariate_slice_sampler_doubling_and_shrinkage`
(src/univariate/doubling.rs). -/
def univariate_slice_sampler_doubling_and_shrinkage
    (x : ℚ) (f : ℚ → ℚ) (onLogScale : Bool) (lnFn : ℚ → ℚ)
    (initial_width : ℚ) (max_number_of_doubles : ℕ) (us : ℕ → ℚ) (fuel : ℕ) :
    Option ℚ × SamplerState :=
  let w := clampWidth initial_width
  let (u1, s1) := draw us initState
  let (fx, s2) := evalf f x s1
  let y := if onLogScale then lnFn u1 + fx else u1 * fx
  doublingRest us f x y w max_number_of_doubles s2 fuel

/-- `univariate_slice_sampler_shrinkage` (src/univariate/shrinkage.rs):
step 1 followed directly by the shrinkage loop on the caller's bracket. -/
def univariate_slice_sampler_shrinkage
    (x : ℚ) (f : ℚ → ℚ) (onLogScale : Bool) (lnFn : ℚ → ℚ)
    (left right : ℚ) (us : ℕ → ℚ) (fuel : ℕ) :
    Option ℚ × SamplerState :=
  let (u1, s1) := draw us initState
  let (fx, s2) := evalf f x s1
  let y := if onLogScale then lnFn u1 + fx else u1 * fx
  shrinkLoop us f x y fuel left right s2

/-! ## Basic state lemmas -/

/-- The per-call invariant relating the evaluation counter to the ghost trace:
the counter equals the number of `evaluate` calls made so far. -/
def CountOk (s : SamplerState) : Prop := s.count = s.evals.length

lemma countOk_initState : CountOk initState := rfl

lemma countOk_evalf {s : SamplerState} (f : ℚ → ℚ) (z : ℚ) (h : CountOk s) :
    CountOk (evalf f z s).2 := by
  simp [CountOk, evalf] at h ⊢
  omega

lemma countOk_draw {s : SamplerState} (us : ℕ → ℚ) (h : CountOk s) :
    CountOk (draw us s).2 := h

lemma countOk_pushBracket {s : SamplerState} (l r : ℚ) (h : CountOk s) :
    CountOk (pushBracket l r s) := h

lemma countOk_shrinkLoop (us : ℕ → ℚ) (f : ℚ → ℚ) (x y : ℚ) :
    ∀ (fuel : ℕ) (l r : ℚ) (s : SamplerState), CountOk s →
      CountOk (shrinkLoop us f x y fuel l r s).2 := by
  intro fuel
  induction fuel with
  | zero => intro l r s h; simpa [shrinkLoop] using h
  | succ n ih =>
    intro l r s h
    simp only [shrinkLoop, draw, pushBracket]
    split
    · exact countOk_evalf f _ h
    · exact ih _ _ _ (countOk_evalf f _ h)

lemma countOk_stepLeftLoop (f : ℚ → ℚ) (y w : ℚ) :
    ∀ (fuel : ℕ) (l : ℚ) (s : SamplerState), CountOk s →
      CountOk (stepLeftLoop f y w fuel l s).2 := by
  intro fuel
  induction fuel with
  | zero => intro l s h; simpa [stepLeftLoop] using h
  | succ n ih =>
    intro l s h
    simp only [stepLeftLoop]
    split
    · exact ih _ _ (countOk_evalf f _ h)
    · exact countOk_evalf f _ h

lemma countOk_stepRightLoop (f : ℚ → ℚ) (y w : ℚ) :
    ∀ (fuel : ℕ) (r : ℚ) (s : SamplerState), CountOk s →
      CountOk (stepRightLoop f y w fuel r s).2 := by
  intro fuel
  induction fuel with
  | zero => intro r s h; simpa [stepRightLoop] using h
  | succ n ih =>
    intro r s h
    simp only [stepRightLoop]
    split
    · exact ih _ _ (countOk_evalf f _ h)
    · exact countOk_evalf f _ h

lemma countOk_stepLeftBounded (f : ℚ → ℚ) (y w : ℚ) :
    ∀ (j : ℕ) (l : ℚ) (s : SamplerState), CountOk s →
      CountOk (stepLeftBounded f y w j l s).2 := by
  intro j
  induction j with
  | zero => intro l s h; simpa [stepLeftBounded] using h
  | succ n ih =>
    intro l s h
    simp only [stepLeftBounded]
    split
    · exact ih _ _ (countOk_evalf f _ h)
    · exact countOk_evalf f _ h

lemma countOk_stepRightBounded (f : ℚ → ℚ) (y w : ℚ) :
    ∀ (k : ℕ) (r : ℚ) (s : SamplerState), CountOk s →
      CountOk (stepRightBounded f y w k r s).2 := by
  intro k
  induction k with
  | zero => intro r s h; simpa [stepRightBounded] using h
  | succ n ih =>
    intro r s h
    simp only [stepRightBounded]
    split
    · exact ih _ _ (countOk_evalf f _ h)
    · exact countOk_evalf f _ h

lemma countOk_doubleLoopUnbounded (us : ℕ → ℚ) (f : ℚ → ℚ) (y : ℚ) :
    ∀ (fuel : ℕ) (l r : ℚ) (s : SamplerState), CountOk s →
      CountOk (doubleLoopUnbounded us f y fuel l r s).2 := by
  intro fuel
  induction fuel with
  | zero => intro l r s h; simpa [doubleLoopUnbounded] using h
  | succ n ih =>
    intro l r s h
    simp only [doubleLoopUnbounded, draw]
    split
    · split
      · exact ih _ _ _ (countOk_evalf f _ (countOk_evalf f _ h))
      · exact countOk_evalf f _ (countOk_evalf f _ h)
    · exact countOk_evalf f _ h

lemma countOk_doubleLoopBounded (us : ℕ → ℚ) (f : ℚ → ℚ) (y : ℚ) :
    ∀ (k : ℕ) (l r : ℚ) (s : SamplerState), CountOk s →
      CountOk (doubleLoopBounded us f y k l r s).2 := by
  intro k
  induction k with
  | zero => intro l r s h; simpa [doubleLoopBounded] using h
  | succ n ih =>
    intro l r s h
    simp only [doubleLoopBounded, draw]
    split
    · exact ih _ _ _ (countOk_evalf f _ h)
    · split
      · exact ih _ _ _ (countOk_evalf f _ (countOk_evalf f _ h))
      · exact countOk_evalf f _ (countOk_evalf f _ h)

lemma countOk_acceptLoop (f : ℚ → ℚ) (w x x1 y : ℚ) :
    ∀ (fuel : ℕ) (lp rp : ℚ) (d : Bool) (s : SamplerState), CountOk s →
      CountOk (acceptLoop f w x x1 y fuel lp rp d s).2 := by
  intro fuel
  induction fuel with
  | zero => intro lp rp d s h; simpa [acceptLoop] using h
  | succ n ih =>
    intro lp rp d s h
    simp only [acceptLoop]
    repeat' split
    all_goals
      first
      | exact h
      | exact countOk_evalf f _ h
      | exact countOk_evalf f _ (countOk_evalf f _ h)
      | exact ih _ _ _ _ h
      | exact ih _ _ _ _ (countOk_evalf f _ h)
      | exact ih _ _ _ _ (countOk_evalf f _ (countOk_evalf f _ h))

lemma countOk_of_acceptLoop_eq {f : ℚ → ℚ} {w x x1 y : ℚ} {fuel : ℕ}
    {lp rp : ℚ} {d : Bool} {s : SamplerState} {o : Option Bool}
    {s' : SamplerState}
    (heq : acceptLoop f w x x1 y fuel lp rp d s = (o, s')) (h : CountOk s) :
    CountOk s' := by
  have h2 := countOk_acceptLoop f w x x1 y fuel lp rp d s h
  rw [heq] at h2
  exact h2

lemma countOk_doublingShrinkLoop (us : ℕ → ℚ) (f : ℚ → ℚ) (w x y : ℚ)
    (afuel : ℕ) :
    ∀ (fuel : ℕ) (l r : ℚ) (s : SamplerState), CountOk s →
      CountOk (doublingShrinkLoop us f w x y afuel fuel l r s).2 := by
  intro fuel
  induction fuel with
  | zero => intro l r s h; simpa [doublingShrinkLoop] using h
  | succ n ih =>
    intro l r s h
    simp only [doublingShrinkLoop]
    set x1 := l + (draw us (pushBracket l r s)).1 * (r - l) with hx1
    set fx1 := (evalf f x1 (draw us (pushBracket l r s)).2).1 with hfx1
    set s3 := (evalf f x1 (draw us (pushBracket l r s)).2).2 with hs3
    have h3 : CountOk s3 := countOk_evalf f _ h
    by_cases hy : y < fx1
    · rw [if_pos hy]
      rcases hA : acceptLoop f w x x1 y afuel l r false s3 with ⟨o, sA⟩
      have hAok : CountOk sA := countOk_of_acceptLoop_eq hA h3
      cases o with
      | none => simpa using hAok
      | some accept =>
        cases accept
        · simpa using ih _ _ _ hAok
        · simpa using hAok
    · rw [if_neg hy]
      simpa using ih _ _ _ h3

lemma countOk_of_stepLeftLoop_eq {f : ℚ → ℚ} {y w : ℚ} {fuel : ℕ} {l : ℚ}
    {s : SamplerState} {o : Option ℚ} {s' : SamplerState}
    (heq : stepLeftLoop f y w fuel l s = (o, s')) (h : CountOk s) :
    CountOk s' := by
  have h2 := countOk_stepLeftLoop f y w fuel l s h
  rw [heq] at h2
  exact h2

lemma countOk_of_stepRightLoop_eq {f : ℚ → ℚ} {y w : ℚ} {fuel : ℕ} {r : ℚ}
    {s : SamplerState} {o : Option ℚ} {s' : SamplerState}
    (heq : stepRightLoop f y w fuel r s = (o, s')) (h : CountOk s) :
    CountOk s' := by
  have h2 := countOk_stepRightLoop f y w fuel r s h
  rw [heq] at h2
  exact h2

lemma countOk_of_doubleLoopUnbounded_eq {us : ℕ → ℚ} {f : ℚ → ℚ} {y : ℚ}
    {fuel : ℕ} {l r : ℚ} {s : SamplerState} {o : Option (ℚ × ℚ)}
    {s' : SamplerState}
    (heq : doubleLoopUnbounded us f y fuel l r s = (o, s')) (h : CountOk s) :
    CountOk s' := by
  have h2 := countOk_doubleLoopUnbounded us f y fuel l r s h
  rw [heq] at h2
  exact h2

lemma countOk_steppingUnbounded (us : ℕ → ℚ) (f : ℚ → ℚ) (x y w l r : ℚ)
    (s : SamplerState) (fuel : ℕ) (h : CountOk s) :
    CountOk (steppingUnbounded us f x y w l r s fuel).2 := by
  simp only [steppingUnbounded]
  split
  next s1 heq => exact countOk_of_stepLeftLoop_eq heq h
  next l' s1 heq =>
    split
    next s2 heq2 =>
      exact countOk_of_stepRightLoop_eq heq2 (countOk_of_stepLeftLoop_eq heq h)
    next r' s2 heq2 =>
      exact countOk_shrinkLoop us f x y fuel l' r' s2
        (countOk_of_stepRightLoop_eq heq2 (countOk_of_stepLeftLoop_eq heq h))

lemma countOk_steppingBounded (us : ℕ → ℚ) (f : ℚ → ℚ) (x y w : ℚ) (m : ℕ)
    (l r : ℚ) (s : SamplerState) (fuel : ℕ) (h : CountOk s) :
    CountOk (steppingBounded us f x y w m l r s fuel).2 := by
  simp only [steppingBounded]
  exact countOk_shrinkLoop us f x y fuel _ _ _
    (countOk_stepRightBounded f y w _ _ _
      (countOk_stepLeftBounded f y w _ _ _ h))

lemma countOk_steppingRestUniv (us : ℕ → ℚ) (f : ℚ → ℚ) (x y w : ℚ) (m : ℕ)
    (s : SamplerState) (fuel : ℕ) (h : CountOk s) :
    CountOk (steppingRestUniv us f x y w m s fuel).2 := by
  simp only [steppingRestUniv]
  split
  · exact countOk_steppingUnbounded us f x y w _ _ _ fuel h
  · split
    · exact countOk_shrinkLoop us f x y fuel _ _ _ h
    · exact countOk_steppingBounded us f x y w m _ _ _ fuel h

lemma countOk_steppingRestLib (us : ℕ → ℚ) (f : ℚ → ℚ) (x y w : ℚ) (m : ℕ)
    (s : SamplerState) (fuel : ℕ) (h : CountOk s) :
    CountOk (steppingRestLib us f x y w m s fuel).2 := by
  simp only [steppingRestLib]
  split
  · exact countOk_steppingUnbounded us f x y w _ _ _ fuel h
  · exact countOk_steppingBounded us f x y w m _ _ _ fuel h

lemma countOk_doublingRest (us : ℕ → ℚ) (f : ℚ → ℚ) (x y w : ℚ) (md : ℕ)
    (s : SamplerState) (fuel : ℕ) (h : CountOk s) :
    CountOk (doublingRest us f x y w md s fuel).2 := by
  simp only [doublingRest]
  split
  · split
    next s2 heq => exact countOk_of_doubleLoopUnbounded_eq heq h
    next l' r' s2 heq =>
      exact countOk_doublingShrinkLoop us f w x y fuel fuel l' r' s2
        (countOk_of_doubleLoopUnbounded_eq heq h)
  · split
    · exact countOk_doublingShrinkLoop us f w x y fuel fuel _ _ _ h
    · exact countOk_doublingShrinkLoop us f w x y fuel fuel _ _ _
        (countOk_doubleLoopBounded us f y md _ _ _ h)

/-- C6: for every sampling call of any of the procedures, the returned counter
equals exactly the number of calls made to the target's `evaluate` function
during that call.  The ghost list `evals` records one entry per `evaluate`
call (appended unconditionally, so a repeated point is a fresh entry and a
fresh increment); the counter starts at 0 in `initState` at the beginning of
each call and is never carried over. -/
theorem evaluation_counter_exact (x : ℚ) (f : ℚ → ℚ) (onLogScale : Bool)
    (lnFn : ℚ → ℚ) (iw : ℚ) (m md : ℕ) (left right : ℚ) (us : ℕ → ℚ)
    (fuel : ℕ) :
    ((univariate_slice_sampler_stepping_out_and_shrinkage x f onLogScale lnFn
        iw m us fuel).2).count
      = ((univariate_slice_sampler_stepping_out_and_shrinkage x f onLogScale
        lnFn iw m us fuel).2).evals.length
    ∧ ((univariate_slice_sampler_doubling_and_shrinkage x f onLogScale lnFn
        iw md us fuel).2).count
      = ((univariate_slice_sampler_doubling_and_shrinkage x f onLogScale lnFn
        iw md us fuel).2).evals.length
    ∧ ((univariate_slice_sampler_shrinkage x f onLogScale lnFn left right us
        fuel).2).count
      = ((univariate_slice_sampler_shrinkage x f onLogScale lnFn left right us
        fuel).2).evals.length
    ∧ ((slice_sampler_stepping_out x f onLogScale lnFn iw m us fuel).2).count
      = ((slice_sampler_stepping_out x f onLogScale lnFn iw m us
        fuel).2).evals.length := by
  refine ⟨?_, ?_, ?_, ?_⟩
  · exact countOk_steppingRestUniv us f x _ _ m _ fuel
      (countOk_draw us (countOk_evalf f x countOk_initState))
  · exact countOk_doublingRest us f x _ _ md _ fuel
      (countOk_evalf f x (countOk_draw us countOk_initState))
  · exact countOk_shrinkLoop us f x _ fuel left right _
      (countOk_evalf f x (countOk_draw us countOk_initState))
  · exact countOk_steppingRestLib us f x _ _ m _ fuel
      (countOk_evalf f x (countOk_draw us countOk_initState))

/-- C7: in step 1 of every procedure, the slice height `y` is computed from
the single uniform draw `u = us 0` and the density value `f x` at the current
point as `y = ln u + f x` on the log scale and `y = u * f x` otherwise; the
rest of the procedure depends on step 1 only through that value (and the
state after one draw and one evaluation). -/
theorem slice_height_step1 (x : ℚ) (f : ℚ → ℚ) (onLogScale : Bool)
    (lnFn : ℚ → ℚ) (iw : ℚ) (m md : ℕ) (left right : ℚ) (us : ℕ → ℚ)
    (fuel : ℕ) :
    univariate_slice_sampler_stepping_out_and_shrinkage x f onLogScale lnFn iw
        m us fuel
      = steppingRestUniv us f x
          (if onLogScale then lnFn (us 0) + f x else us 0 * f x)
          (clampWidth iw) m ⟨1, 1, [x], []⟩ fuel
    ∧ univariate_slice_sampler_doubling_and_shrinkage x f onLogScale lnFn iw
        md us fuel
      = doublingRest us f x
          (if onLogScale then lnFn (us 0) + f x else us 0 * f x)
          (clampWidth iw) md ⟨1, 1, [x], []⟩ fuel
    ∧ univariate_slice_sampler_shrinkage x f onLogScale lnFn left right us
        fuel
      = shrinkLoop us f x
          (if onLogScale then lnFn (us 0) + f x else us 0 * f x)
          fuel left right ⟨1, 1, [x], []⟩
    ∧ slice_sampler_stepping_out x f onLogScale lnFn iw m us fuel
      = steppingRestLib us f x
          (if onLogScale then lnFn (us 0) + f x else us 0 * f x)
          (clampWidth iw) m ⟨1, 1, [x], []⟩ fuel :=
  ⟨rfl, rfl, rfl, rfl⟩

lemma minPositive_pos : 0 < minPositive := by
  unfold minPositive
  positivity

/-- C8: a non-positive `width` / `initial_width` is silently clamped to
`f64::MIN_POSITIVE` (the smallest positive representable value): the
effective width is `minPositive` and each sampling procedure behaves exactly
as if it had been called with `minPositive`; there is no error path (the
return type carries no error). -/
theorem nonpositive_width_clamped (x : ℚ) (f : ℚ → ℚ) (onLogScale : Bool)
    (lnFn : ℚ → ℚ) (width : ℚ) (m md : ℕ) (us : ℕ → ℚ) (fuel : ℕ)
    (h : width ≤ 0) :
    clampWidth width = minPositive
    ∧ univariate_slice_sampler_stepping_out_and_shrinkage x f onLogScale lnFn
        width m us fuel
      = univariate_slice_sampler_stepping_out_and_shrinkage x f onLogScale
        lnFn minPositive m us fuel
    ∧ univariate_slice_sampler_doubling_and_shrinkage x f onLogScale lnFn
        width md us fuel
      = univariate_slice_sampler_doubling_and_shrinkage x f onLogScale lnFn
        minPositive md us fuel
    ∧ slice_sampler_stepping_out x f onLogScale lnFn width m us fuel
      = slice_sampler_stepping_out x f onLogScale lnFn minPositive m us
        fuel := by
  have hmp : ¬ minPositive ≤ 0 := not_le.mpr minPositive_pos
  refine ⟨if_pos h, ?_, ?_, ?_⟩
  · simp only [univariate_slice_sampler_stepping_out_and_shrinkage,
      clampWidth, if_pos h, if_neg hmp]
  · simp only [univariate_slice_sampler_doubling_and_shrinkage, clampWidth,
      if_pos h, if_neg hmp]
  · simp only [slice_sampler_stepping_out, clampWidth, if_pos h, if_neg hmp]

/-- Witness for `nonpositive_width_clamped` at `width = -1`. -/
theorem nonpositive_width_clamped_witness :
    clampWidth (-1) = minPositive
    ∧ univariate_slice_sampler_stepping_out_and_shrinkage 0 (fun _ => 1)
        false id (-1) 1 (fun _ => 0) 3
      = univariate_slice_sampler_stepping_out_and_shrinkage 0 (fun _ => 1)
        false id minPositive 1 (fun _ => 0) 3
    ∧ univariate_slice_sampler_doubling_and_shrinkage 0 (fun _ => 1) false id
        (-1) 1 (fun _ => 0) 3
      = univariate_slice_sampler_doubling_and_shrinkage 0 (fun _ => 1) false
        id minPositive 1 (fun _ => 0) 3
    ∧ slice_sampler_stepping_out 0 (fun _ => 1) false id (-1) 1 (fun _ => 0) 3
      = slice_sampler_stepping_out 0 (fun _ => 1) false id minPositive 1
        (fun _ => 0) 3 :=
  nonpositive_width_clamped 0 (fun _ => 1) false id (-1) 1 1 (fun _ => 0) 3
    (by norm_num)

/-- C10: in the bounded stepping-out branch, for any uniform draw
`u ∈ [0, 1)` and budget `n ≥ 1` (a `u32`, so `n < 2^32`), the left budget
`j = floor(u * n)` cast to `u32` satisfies `j ≤ n - 1`, and the `u32`
subtraction `n - 1 - j` neither panics nor wraps: the wrapping subtraction
equals the exact value. -/
theorem budget_split_no_underflow (u : ℚ) (n : ℕ)
    (h0 : 0 ≤ u) (h1 : u < 1) (hn : 1 ≤ n) (hn32 : n < 2 ^ 32) :
    leftBudget u n ≤ n - 1
    ∧ u32Sub (u32Sub n 1) (leftBudget u n) = n - 1 - leftBudget u n := by
  have hnq : (0 : ℚ) < (n : ℚ) := by
    have : 0 < n := hn
    exact_mod_cast this
  have hmul : u * (n : ℚ) < (n : ℚ) := by nlinarith
  have hfl : Int.floor (u * (n : ℚ)) < (n : ℤ) := by
    rw [Int.floor_lt]
    push_cast
    exact hmul
  have hj : leftBudget u n ≤ n - 1 := by
    unfold leftBudget ratAsU32
    omega
  refine ⟨hj, ?_⟩
  unfold u32Sub
  unfold leftBudget ratAsU32 at hj ⊢
  omega

/-- Witness for `budget_split_no_underflow` at `u = 1/2`, `n = 3`. -/
theorem budget_split_no_underflow_witness :
    leftBudget (1 / 2) 3 ≤ 3 - 1
    ∧ u32Sub (u32Sub 3 1) (leftBudget (1 / 2) 3)
      = 3 - 1 - leftBudget (1 / 2) 3 :=
  budget_split_no_underflow (1 / 2) 3 (by norm_num) (by norm_num)
    (by norm_num) (by norm_num)

/-- C2: evaluation of the unbounded doubling step at the failing input
`l = -1/2`, `r = 1/2`, `u = 1/2` (so `u < 0.5` is false and the rightward
branch runs).  The source's `r -= r - l` sets `r` to `l`, collapsing the
bracket to width zero, instead of the doubling `r = r + (r - l) = 3/2` the
claim states; the bounded branch of the very same function performs the
correct `r += r - l`. -/
theorem unbounded_right_double_collapses :
    doubleStepUnbounded (1 / 2) (-(1 / 2)) (1 / 2) = (-(1 / 2), -(1 / 2))
    ∧ doubleStepUnbounded (1 / 2) (-(1 / 2)) (1 / 2) ≠ (-(1 / 2), 3 / 2)
    ∧ doubleStepBounded (1 / 2) (-(1 / 2)) (1 / 2) = (-(1 / 2), 3 / 2) := by
  refine ⟨?_, ?_, ?_⟩ <;> norm_num [doubleStepUnbounded, doubleStepBounded]

/-- Draw stream exhibiting the divergence of the two stepping-out
implementations at `max_number_of_steps == 1`. -/
def usC9 : ℕ → ℚ := fun n =>
  if n = 0 then 1 / 2 else if n = 1 then 0 else if n = 2 then 1 / 4
  else if n = 3 then 3 / 4 else 0

/-- C9 counterexample: with the identical draw stream `usC9`, the constant
target `f = 1`, `width = 1` and `max_number_of_steps = 1`, the lib.rs
implementation burns one draw on the budget split (`j = floor(u * 1) = 0`,
`k = 0`) while the univariate implementation skips step 2 entirely, so the
shrinkage draws differ and the returned samples differ (`3/4` vs `1/4`). -/
theorem stepping_out_implementations_differ_at_one :
    (slice_sampler_stepping_out 0 (fun _ => 1) false id 1 1 usC9 5).1
      = some (3 / 4)
    ∧ (univariate_slice_sampler_stepping_out_and_shrinkage 0 (fun _ => 1)
        false id 1 1 usC9 5).1 = some (1 / 4)
    ∧ (3 : ℚ) / 4 ≠ 1 / 4 := by
  refine ⟨?_, ?_, by norm_num⟩
  · norm_num [slice_sampler_stepping_out, steppingRestLib, steppingBounded,
      steppingUnbounded, shrinkLoop, stepLeftBounded, stepRightBounded,
      draw, evalf, pushBracket, initState, usC9, clampWidth, leftBudget,
      ratAsU32, u32Sub]
  · norm_num [univariate_slice_sampler_stepping_out_and_shrinkage,
      steppingRestUniv, shrinkLoop, draw, evalf, pushBracket, initState,
      usC9, clampWidth]

lemma steppingRest_lib_eq_univ (us : ℕ → ℚ) (f : ℚ → ℚ) (x y w : ℚ) (m : ℕ)
    (s : SamplerState) (fuel : ℕ) (h : m ≠ 1) :
    steppingRestLib us f x y w m s fuel
      = steppingRestUniv us f x y w m s fuel := by
  unfold steppingRestLib steppingRestUniv
  by_cases h0 : m = 0
  · simp [h0]
  · simp [h0, h]

/-- C9 amended: for every `max_number_of_steps ≠ 1` the two stepping-out
implementations agree exactly (same sample, same final state and hence the
same evaluation count) on identical draw streams; they differ when
`max_number_of_steps = 1` because lib.rs consumes an extra budget-split
draw. -/
theorem stepping_out_implementations_agree (x : ℚ) (f : ℚ → ℚ)
    (onLogScale : Bool) (lnFn : ℚ → ℚ) (width : ℚ) (m : ℕ) (us : ℕ → ℚ)
    (fuel : ℕ) (h : m ≠ 1) :
    slice_sampler_stepping_out x f onLogScale lnFn width m us fuel
      = univariate_slice_sampler_stepping_out_and_shrinkage x f onLogScale
        lnFn width m us fuel := by
  show steppingRestLib us f x _ _ m _ fuel
    = steppingRestUniv us f x _ _ m _ fuel
  exact steppingRest_lib_eq_univ us f x _ _ m _ fuel h

/-- Witness for `stepping_out_implementations_agree` at
`max_number_of_steps = 2`. -/
theorem stepping_out_implementations_agree_witness :
    slice_sampler_stepping_out 0 (fun _ => 1) false id 1 2 usC9 5
      = univariate_slice_sampler_stepping_out_and_shrinkage 0 (fun _ => 1)
        false id 1 2 usC9 5 :=
  stepping_out_implementations_agree 0 (fun _ => 1) false id 1 2 usC9 5
    (by norm_num)

/-- Indicator target used for the C5 counterexample: density 1 at `0`,
density 0 elsewhere. -/
def fC5 : ℚ → ℚ := fun t => if t = 0 then 1 else 0

/-- C5 counterexample: with slice height `y = 1/2`, bracket `(0, 1)` and
budget `k = 2`, the right endpoint already fails the slice condition
(`f(1) = 0 ≤ y`), so under the claimed condition (`f(l) > y` AND
`f(r) > y`, as in the unbounded branch) the expansion loop would stop with
the bracket `(0, 1)` unchanged; the code's `||` condition instead performs a
doubling step (draw `v = 0 < 0.5`, leftward) and returns the bracket
`(-1, 1)`. -/
theorem doubling_bounded_expansion_ignores_and_condition :
    ¬ ((1 : ℚ) / 2 < fC5 1)
    ∧ (doubleLoopBounded (fun _ => 0) fC5 (1 / 2) 2 0 1 initState).1 = (-1, 1)
    ∧ ((-1 : ℚ), (1 : ℚ)) ≠ ((0 : ℚ), (1 : ℚ)) := by
  refine ⟨by norm_num [fC5], ?_, by norm_num⟩
  norm_num [doubleLoopBounded, doubleStepBounded, evalf, draw, initState, fC5]

/-- C5 amended: the bounded doubling expansion stops when the budget `k`
reaches 0 and otherwise continues exactly when `f(l) > y` OR (short-circuit)
`f(r) > y` — not when both hold, as in the unbounded branch — performing one
doubling step (`doubleStepBounded`, whose rightward branch is `r += r - l`)
and decrementing the budget. -/
theorem doubling_bounded_loop_characterization (us : ℕ → ℚ) (f : ℚ → ℚ)
    (y l r : ℚ) (s : SamplerState) (k : ℕ) :
    doubleLoopBounded us f y 0 l r s = ((l, r), s)
    ∧ (y < f l →
        doubleLoopBounded us f y (k + 1) l r s
          = doubleLoopBounded us f y k
              (doubleStepBounded (draw us (evalf f l s).2).1 l r).1
              (doubleStepBounded (draw us (evalf f l s).2).1 l r).2
              (draw us (evalf f l s).2).2)
    ∧ (¬ y < f l → y < f r →
        doubleLoopBounded us f y (k + 1) l r s
          = doubleLoopBounded us f y k
              (doubleStepBounded (draw us (evalf f r (evalf f l s).2).2).1
                l r).1
              (doubleStepBounded (draw us (evalf f r (evalf f l s).2).2).1
                l r).2
              (draw us (evalf f r (evalf f l s).2).2).2)
    ∧ (¬ y < f l → ¬ y < f r →
        doubleLoopBounded us f y (k + 1) l r s
          = ((l, r), (evalf f r (evalf f l s).2).2)) := by
  refine ⟨rfl, ?_, ?_, ?_⟩
  · intro h
    simp [doubleLoopBounded, evalf, draw, h]
  · intro h1 h2
    simp [doubleLoopBounded, evalf, draw, h1, h2]
  · intro h1 h2
    simp [doubleLoopBounded, evalf, draw, h1, h2]

/-- Witness for `doubling_bounded_loop_characterization`: the stopping case
with both endpoints at or below the slice. -/
theorem doubling_bounded_loop_characterization_witness :
    doubleLoopBounded (fun _ => 0) (fun _ => 0) (1 / 2) 1 0 1 initState
      = ((0, 1),
        (evalf (fun _ => 0) 1 (evalf (fun _ => 0) 0 initState).2).2) :=
  (doubling_bounded_loop_characterization (fun _ => 0) (fun _ => 0) (1 / 2)
    0 1 initState 0).2.2.2 (by norm_num) (by norm_num)

/-- Indicator target for the C1 run: density 1 on
`{31/4, 7, 41/5, 39/5}`, density 0 elsewhere (slice height will be 1/2). -/
def fC1 : ℚ → ℚ := fun t =>
  if t = 31 / 4 ∨ t = 7 ∨ t = 41 / 5 ∨ t = 39 / 5 then 1 else 0

/-- Draw stream for the C1 run: slice draw 1/2, placement draw 3/4, four
expansion draws 1/2 (rightward doublings), then shrinkage draws 3/32, 7/15,
5/8. -/
def usC1 : ℕ → ℚ := fun n =>
  if n = 0 then 1 / 2 else if n = 1 then 3 / 4 else if n ≤ 5 then 1 / 2
  else if n = 6 then 3 / 32 else if n = 7 then 7 / 15 else if n = 8 then 5 / 8
  else if n = 9 then 1 / 5 else 0

set_option maxHeartbeats 1000000 in
/-- C1: concrete run showing the reverse-check is replayed against the
bracket as narrowed by earlier shrink steps, not the original
post-expansion bracket.  From `x = 31/4` with width 1 and 4 rightward
doublings, the post-expansion bracket is `(7, 23)`.  Two rejected shrink
draws narrow it to `(77/10, 17/2)`; the third draw `x1 = 41/5` passes the
plain test and the code's reverse-check starts from the narrowed bracket,
whose width `4/5 ≤ 1.1` skips the bisection entirely, so `41/5` is returned.
Replaying the same acceptance test from the original bracket `(7, 23)` (as
the claim requires) rejects `41/5`: the bisection reaches midpoint 8, which
separates `x = 31/4` from `x1 = 41/5` (setting `d`), and both endpoints of
`(8, 9)` lie at or below the slice. -/
theorem doubling_reverse_check_uses_shrunk_bracket :
    (univariate_slice_sampler_doubling_and_shrinkage (31 / 4) fC1 false id 1
        4 usC1 10).1 = some (41 / 5)
    ∧ (univariate_slice_sampler_doubling_and_shrinkage (31 / 4) fC1 false id
        1 4 usC1 10).2.brackets
      = [(7, 23), (7, 17 / 2), (77 / 10, 17 / 2)]
    ∧ (acceptLoop fC1 1 (31 / 4) (41 / 5) (1 / 2) 10 7 23 false
        initState).1 = some false := by
  have h1 : univariate_slice_sampler_doubling_and_shrinkage (31 / 4) fC1
      false id 1 4 usC1 10
      = doublingRest usC1 fC1 (31 / 4) (1 / 2) 1 4 ⟨1, 1, [31 / 4], []⟩
          10 := by
    norm_num [univariate_slice_sampler_doubling_and_shrinkage, draw, evalf,
      initState, usC1, fC1, clampWidth]
  have h2 : doublingRest usC1 fC1 (31 / 4) (1 / 2) 1 4 ⟨1, 1, [31 / 4], []⟩
        10
      = doublingShrinkLoop usC1 fC1 1 (31 / 4) (1 / 2) 10 10 7 23
          ⟨6, 5, [31 / 4, 7, 7, 7, 7], []⟩ := by
    norm_num [doublingRest, doubleLoopBounded, doubleStepBounded, draw,
      evalf, usC1, fC1]
  have h3 : doublingShrinkLoop usC1 fC1 1 (31 / 4) (1 / 2) 10 10 7 23
        ⟨6, 5, [31 / 4, 7, 7, 7, 7], []⟩
      = (some (41 / 5),
          ⟨9, 8, [31 / 4, 7, 7, 7, 7, 17 / 2, 77 / 10, 41 / 5],
            [(7, 23), (7, 17 / 2), (77 / 10, 17 / 2)]⟩) := by
    norm_num [doublingShrinkLoop, acceptLoop, shrinkStepBracket, evalf,
      draw, pushBracket, usC1, fC1]
  refine ⟨?_, ?_, ?_⟩
  · rw [h1, h2, h3]
  · rw [h1, h2, h3]
  · norm_num [acceptLoop, evalf, initState, fC1]

/-! ## Acceptance correctness -/

lemma shrinkLoop_some (us : ℕ → ℚ) (f : ℚ → ℚ) (x y : ℚ) :
    ∀ (fuel : ℕ) (l r : ℚ) (s : SamplerState) (x1 : ℚ) (s' : SamplerState),
      shrinkLoop us f x y fuel l r s = (some x1, s') → y < f x1 := by
  intro fuel
  induction fuel with
  | zero => intro l r s x1 s' h; simp [shrinkLoop] at h
  | succ n ih =>
    intro l r s x1 s' h
    simp only [shrinkLoop] at h
    split at h
    next hy =>
      injection h with h1 h2
      injection h1 with h1
      subst h1
      simpa [evalf] using hy
    next hy => exact ih _ _ _ _ _ h

lemma doublingShrinkLoop_some (us : ℕ → ℚ) (f : ℚ → ℚ) (w x y : ℚ)
    (afuel : ℕ) :
    ∀ (fuel : ℕ) (l r : ℚ) (s : SamplerState) (x1 : ℚ) (s' : SamplerState),
      doublingShrinkLoop us f w x y afuel fuel l r s = (some x1, s')
        → y < f x1 := by
  intro fuel
  induction fuel with
  | zero => intro l r s x1 s' h; simp [doublingShrinkLoop] at h
  | succ n ih =>
    intro l r s x1 s' h
    simp only [doublingShrinkLoop] at h
    set z1 := l + (draw us (pushBracket l r s)).1 * (r - l) with hz1
    by_cases hy : y < (evalf f z1 (draw us (pushBracket l r s)).2).1
    · rw [if_pos hy] at h
      rcases hA : acceptLoop f w x z1 y afuel l r false
          (evalf f z1 (draw us (pushBracket l r s)).2).2 with ⟨o, sA⟩
      rw [hA] at h
      cases o with
      | none => simp at h
      | some accept =>
        cases accept
        · simp only [Bool.false_eq_true, if_false] at h
          exact ih _ _ _ _ _ h
        · simp only [if_true] at h
          injection h with h1 h2
          injection h1 with h1
          subst h1
          simpa [evalf] using hy
    · rw [if_neg hy] at h
      exact ih _ _ _ _ _ h

lemma steppingUnbounded_some {us : ℕ → ℚ} {f : ℚ → ℚ} {x y w l r : ℚ}
    {s : SamplerState} {fuel : ℕ} {x1 : ℚ} {s' : SamplerState}
    (h : steppingUnbounded us f x y w l r s fuel = (some x1, s')) :
    y < f x1 := by
  simp only [steppingUnbounded] at h
  split at h
  next => simp at h
  next l' s1 heq =>
    split at h
    next => simp at h
    next r' s2 heq2 => exact shrinkLoop_some us f x y fuel l' r' s2 x1 s' h

lemma steppingBounded_some {us : ℕ → ℚ} {f : ℚ → ℚ} {x y w : ℚ} {m : ℕ}
    {l r : ℚ} {s : SamplerState} {fuel : ℕ} {x1 : ℚ} {s' : SamplerState}
    (h : steppingBounded us f x y w m l r s fuel = (some x1, s')) :
    y < f x1 := by
  simp only [steppingBounded] at h
  exact shrinkLoop_some us f x y fuel _ _ _ x1 s' h

lemma steppingRestUniv_some {us : ℕ → ℚ} {f : ℚ → ℚ} {x y w : ℚ} {m : ℕ}
    {s : SamplerState} {fuel : ℕ} {x1 : ℚ} {s' : SamplerState}
    (h : steppingRestUniv us f x y w m s fuel = (some x1, s')) :
    y < f x1 := by
  simp only [steppingRestUniv] at h
  split at h
  · exact steppingUnbounded_some h
  · split at h
    · exact shrinkLoop_some us f x y fuel _ _ _ x1 s' h
    · exact steppingBounded_some h

lemma steppingRestLib_some {us : ℕ → ℚ} {f : ℚ → ℚ} {x y w : ℚ} {m : ℕ}
    {s : SamplerState} {fuel : ℕ} {x1 : ℚ} {s' : SamplerState}
    (h : steppingRestLib us f x y w m s fuel = (some x1, s')) :
    y < f x1 := by
  simp only [steppingRestLib] at h
  split at h
  · exact steppingUnbounded_some h
  · exact steppingBounded_some h

lemma doublingRest_some {us : ℕ → ℚ} {f : ℚ → ℚ} {x y w : ℚ} {md : ℕ}
    {s : SamplerState} {fuel : ℕ} {x1 : ℚ} {s' : SamplerState}
    (h : doublingRest us f x y w md s fuel = (some x1, s')) :
    y < f x1 := by
  simp only [doublingRest] at h
  split at h
  · split at h
    next => simp at h
    next l' r' s2 heq =>
      exact doublingShrinkLoop_some us f w x y fuel fuel l' r' s2 x1 s' h
  · split at h
    · exact doublingShrinkLoop_some us f w x y fuel fuel _ _ _ x1 s' h
    · exact doublingShrinkLoop_some us f w x y fuel fuel _ _ _ x1 s' h

/-- C4: whenever any of the three univariate procedures returns a sample
`x1`, it satisfies `f(x1) > y`, where `y` is the slice height drawn in
step 1 from the first uniform draw `us 0` and the density value `f x` (on
the log scale `y = ln u + f x`, otherwise `y = u * f x`). -/
theorem acceptance_correctness (x : ℚ) (f : ℚ → ℚ) (onLogScale : Bool)
    (lnFn : ℚ → ℚ) (iw : ℚ) (m md : ℕ) (left right : ℚ) (us : ℕ → ℚ)
    (fuel : ℕ) (x1 : ℚ) :
    ((univariate_slice_sampler_stepping_out_and_shrinkage x f onLogScale
        lnFn iw m us fuel).1 = some x1
      → (if onLogScale then lnFn (us 0) + f x else us 0 * f x) < f x1)
    ∧ ((univariate_slice_sampler_doubling_and_shrinkage x f onLogScale lnFn
        iw md us fuel).1 = some x1
      → (if onLogScale then lnFn (us 0) + f x else us 0 * f x) < f x1)
    ∧ ((univariate_slice_sampler_shrinkage x f onLogScale lnFn left right us
        fuel).1 = some x1
      → (if onLogScale then lnFn (us 0) + f x else us 0 * f x) < f x1) := by
  refine ⟨?_, ?_, ?_⟩
  · intro h
    rcases he : univariate_slice_sampler_stepping_out_and_shrinkage x f
      onLogScale lnFn iw m us fuel with ⟨o, s'⟩
    rw [he] at h
    simp only at h
    subst h
    exact steppingRestUniv_some he
  · intro h
    rcases he : univariate_slice_sampler_doubling_and_shrinkage x f
      onLogScale lnFn iw md us fuel with ⟨o, s'⟩
    rw [he] at h
    simp only at h
    subst h
    exact doublingRest_some he
  · intro h
    rcases he : univariate_slice_sampler_shrinkage x f onLogScale lnFn left
      right us fuel with ⟨o, s'⟩
    rw [he] at h
    simp only at h
    subst h
    exact shrinkLoop_some us f x _ fuel left right _ x1 s' he

/-- Witness for `acceptance_correctness`: concrete terminating runs of the
three procedures with a constant density 1 and slice heights 0, 1/3 and
1/2. -/
theorem acceptance_correctness_witness :
    (0 : ℚ) * 1 < 1 ∧ (1 / 3 : ℚ) * 1 < 1 ∧ (1 / 2 : ℚ) * 1 < 1 := by
  refine ⟨?_, ?_, ?_⟩
  · have h := (acceptance_correctness 0 (fun _ => 1) false id 1 1 1 0 0
      (fun _ => 0) 1 0).1 (by
        norm_num [univariate_slice_sampler_stepping_out_and_shrinkage,
          steppingRestUniv, shrinkLoop, draw, evalf, pushBracket, initState,
          clampWidth])
    simpa using h
  · have h := (acceptance_correctness 0 (fun _ => 1) false id 1 1 1 0 0
      (fun _ => 1 / 3) 2 0).2.1 (by
        norm_num [univariate_slice_sampler_doubling_and_shrinkage,
          doublingRest, doublingShrinkLoop, acceptLoop, shrinkStepBracket,
          draw, evalf, pushBracket, initState, clampWidth])
    simpa using h
  · have h := (acceptance_correctness 0 (fun _ => 1) false id 1 1 1 (-1) 1
      (fun _ => 1 / 2) 1 0).2.2 (by
        norm_num [univariate_slice_sampler_shrinkage, shrinkLoop, draw,
          evalf, pushBracket, initState])
    simpa using h

/-! ## Bracket containment -/

/-- Every bracket recorded at a shrinkage-iteration entry contains `x`. -/
def InBr (x : ℚ) (s : SamplerState) : Prop :=
  ∀ p ∈ s.brackets, p.1 ≤ x ∧ x ≤ p.2

lemma inBr_initState (x : ℚ) : InBr x initState := by
  intro p hp
  simp [initState] at hp

lemma clampWidth_pos (width : ℚ) : 0 < clampWidth width := by
  unfold clampWidth
  split
  · exact minPositive_pos
  · linarith [not_le.mp (by assumption : ¬ width ≤ 0)]

lemma brackets_stepLeftLoop (f : ℚ → ℚ) (y w : ℚ) :
    ∀ (fuel : ℕ) (l : ℚ) (s : SamplerState),
      (stepLeftLoop f y w fuel l s).2.brackets = s.brackets := by
  intro fuel
  induction fuel with
  | zero => intro l s; simp [stepLeftLoop]
  | succ n ih =>
    intro l s
    simp only [stepLeftLoop]
    split
    · exact ih _ _
    · rfl

lemma brackets_stepRightLoop (f : ℚ → ℚ) (y w : ℚ) :
    ∀ (fuel : ℕ) (r : ℚ) (s : SamplerState),
      (stepRightLoop f y w fuel r s).2.brackets = s.brackets := by
  intro fuel
  induction fuel with
  | zero => intro r s; simp [stepRightLoop]
  | succ n ih =>
    intro r s
    simp only [stepRightLoop]
    split
    · exact ih _ _
    · rfl

lemma brackets_stepLeftBounded (f : ℚ → ℚ) (y w : ℚ) :
    ∀ (j : ℕ) (l : ℚ) (s : SamplerState),
      (stepLeftBounded f y w j l s).2.brackets = s.brackets := by
  intro j
  induction j with
  | zero => intro l s; simp [stepLeftBounded]
  | succ n ih =>
    intro l s
    simp only [stepLeftBounded]
    split
    · exact ih _ _
    · rfl

lemma brackets_stepRightBounded (f : ℚ → ℚ) (y w : ℚ) :
    ∀ (k : ℕ) (r : ℚ) (s : SamplerState),
      (stepRightBounded f y w k r s).2.brackets = s.brackets := by
  intro k
  induction k with
  | zero => intro r s; simp [stepRightBounded]
  | succ n ih =>
    intro r s
    simp only [stepRightBounded]
    split
    · exact ih _ _
    · rfl

lemma brackets_doubleLoopUnbounded (us : ℕ → ℚ) (f : ℚ → ℚ) (y : ℚ) :
    ∀ (fuel : ℕ) (l r : ℚ) (s : SamplerState),
      (doubleLoopUnbounded us f y fuel l r s).2.brackets = s.brackets := by
  intro fuel
  induction fuel with
  | zero => intro l r s; simp [doubleLoopUnbounded]
  | succ n ih =>
    intro l r s
    simp only [doubleLoopUnbounded]
    split
    · split
      · exact ih _ _ _
      · rfl
    · rfl

lemma brackets_doubleLoopBounded (us : ℕ → ℚ) (f : ℚ → ℚ) (y : ℚ) :
    ∀ (k : ℕ) (l r : ℚ) (s : SamplerState),
      (doubleLoopBounded us f y k l r s).2.brackets = s.brackets := by
  intro k
  induction k with
  | zero => intro l r s; simp [doubleLoopBounded]
  | succ n ih =>
    intro l r s
    simp only [doubleLoopBounded]
    repeat' split
    all_goals first | rfl | exact ih _ _ _

lemma brackets_acceptLoop (f : ℚ → ℚ) (w x x1 y : ℚ) :
    ∀ (fuel : ℕ) (lp rp : ℚ) (d : Bool) (s : SamplerState),
      (acceptLoop f w x x1 y fuel lp rp d s).2.brackets = s.brackets := by
  intro fuel
  induction fuel with
  | zero => intro lp rp d s; simp [acceptLoop]
  | succ n ih =>
    intro lp rp d s
    simp only [acceptLoop]
    repeat' split
    all_goals first | rfl | exact ih _ _ _ _

lemma inBr_of_brackets_eq {x : ℚ} {s s' : SamplerState}
    (heq : s'.brackets = s.brackets) (h : InBr x s) : InBr x s' := by
  intro p hp
  rw [heq] at hp
  exact h p hp

lemma inBr_pushBracket {x l r : ℚ} {s : SamplerState} (h : InBr x s)
    (hl : l ≤ x) (hr : x ≤ r) : InBr x (pushBracket l r s) := by
  intro p hp
  simp only [pushBracket, List.mem_append, List.mem_singleton] at hp
  rcases hp with hp | hp
  · exact h p hp
  · subst hp
    exact ⟨hl, hr⟩

lemma shrinkStepBracket_contains {x x1 l r l2 r2 : ℚ}
    (heq : shrinkStepBracket x x1 l r = (l2, r2)) (hl : l ≤ x) (hr : x ≤ r) :
    l2 ≤ x ∧ x ≤ r2 := by
  unfold shrinkStepBracket at heq
  split at heq
  next hlt =>
    injection heq with e1 e2
    subst e1
    subst e2
    exact ⟨le_of_lt hlt, hr⟩
  next hge =>
    injection heq with e1 e2
    subst e1
    subst e2
    exact ⟨hl, le_of_not_lt hge⟩

lemma shrinkLoop_inbr (us : ℕ → ℚ) (f : ℚ → ℚ) (x y : ℚ) :
    ∀ (fuel : ℕ) (l r : ℚ) (s : SamplerState), l ≤ x → x ≤ r → InBr x s →
      InBr x (shrinkLoop us f x y fuel l r s).2 := by
  intro fuel
  induction fuel with
  | zero => intro l r s hl hr h; simpa [shrinkLoop] using h
  | succ n ih =>
    intro l r s hl hr h
    simp only [shrinkLoop]
    have hpush : InBr x (pushBracket l r s) := inBr_pushBracket h hl hr
    split
    · exact hpush
    · rcases hsb : shrinkStepBracket x
        (l + (draw us (pushBracket l r s)).1 * (r - l)) l r with ⟨l2, r2⟩
      obtain ⟨h1, h2⟩ := shrinkStepBracket_contains hsb hl hr
      have hstate : InBr x (evalf f
          (l + (draw us (pushBracket l r s)).1 * (r - l))
          (draw us (pushBracket l r s)).2).2 :=
        inBr_of_brackets_eq rfl hpush
      exact ih _ _ _ h1 h2 hstate

lemma doublingShrinkLoop_inbr (us : ℕ → ℚ) (f : ℚ → ℚ) (w x y : ℚ)
    (afuel : ℕ) :
    ∀ (fuel : ℕ) (l r : ℚ) (s : SamplerState), l ≤ x → x ≤ r → InBr x s →
      InBr x (doublingShrinkLoop us f w x y afuel fuel l r s).2 := by
  intro fuel
  induction fuel with
  | zero => intro l r s hl hr h; simpa [doublingShrinkLoop] using h
  | succ n ih =>
    intro l r s hl hr h
    simp only [doublingShrinkLoop]
    have hpush : InBr x (pushBracket l r s) := inBr_pushBracket h hl hr
    set z1 := l + (draw us (pushBracket l r s)).1 * (r - l) with hz1
    rcases hsb : shrinkStepBracket x z1 l r with ⟨l2, r2⟩
    obtain ⟨h1, h2⟩ := shrinkStepBracket_contains hsb hl hr
    by_cases hy : y < (evalf f z1 (draw us (pushBracket l r s)).2).1
    · rw [if_pos hy]
      rcases hA : acceptLoop f w x z1 y afuel l r false
          (evalf f z1 (draw us (pushBracket l r s)).2).2 with ⟨o, sA⟩
      have hAbr : sA.brackets = (pushBracket l r s).brackets := by
        have := brackets_acceptLoop f w x z1 y afuel l r false
          (evalf f z1 (draw us (pushBracket l r s)).2).2
        rw [hA] at this
        exact this
      have hAin : InBr x sA := inBr_of_brackets_eq hAbr hpush
      cases o with
      | none => simpa using hAin
      | some accept =>
        cases accept
        · simpa using ih _ _ _ h1 h2 hAin
        · simpa using hAin
    · rw [if_neg hy]
      have hstate : InBr x
          (evalf f z1 (draw us (pushBracket l r s)).2).2 :=
        inBr_of_brackets_eq rfl hpush
      exact ih _ _ _ h1 h2 hstate

lemma stepLeftLoop_le (f : ℚ → ℚ) (y w : ℚ) (hw : 0 ≤ w) :
    ∀ (fuel : ℕ) (l : ℚ) (s : SamplerState) (l' : ℚ) (s' : SamplerState),
      stepLeftLoop f y w fuel l s = (some l', s') → l' ≤ l := by
  intro fuel
  induction fuel with
  | zero => intro l s l' s' h; simp [stepLeftLoop] at h
  | succ n ih =>
    intro l s l' s' h
    simp only [stepLeftLoop] at h
    split at h
    · have := ih _ _ _ _ h
      linarith
    · injection h with h1 h2
      injection h1 with h1
      subst h1
      exact le_refl _

lemma stepRightLoop_ge (f : ℚ → ℚ) (y w : ℚ) (hw : 0 ≤ w) :
    ∀ (fuel : ℕ) (r : ℚ) (s : SamplerState) (r' : ℚ) (s' : SamplerState),
      stepRightLoop f y w fuel r s = (some r', s') → r ≤ r' := by
  intro fuel
  induction fuel with
  | zero => intro r s r' s' h; simp [stepRightLoop] at h
  | succ n ih =>
    intro r s r' s' h
    simp only [stepRightLoop] at h
    split at h
    · have := ih _ _ _ _ h
      linarith
    · injection h with h1 h2
      injection h1 with h1
      subst h1
      exact le_refl _

lemma stepLeftBounded_le (f : ℚ → ℚ) (y w : ℚ) (hw : 0 ≤ w) :
    ∀ (j : ℕ) (l : ℚ) (s : SamplerState),
      (stepLeftBounded f y w j l s).1 ≤ l := by
  intro j
  induction j with
  | zero => intro l s; simp [stepLeftBounded]
  | succ n ih =>
    intro l s
    simp only [stepLeftBounded]
    split
    · have := ih (l - w) (evalf f l s).2
      linarith
    · exact le_refl _

lemma stepRightBounded_ge (f : ℚ → ℚ) (y w : ℚ) (hw : 0 ≤ w) :
    ∀ (k : ℕ) (r : ℚ) (s : SamplerState),
      r ≤ (stepRightBounded f y w k r s).1 := by
  intro k
  induction k with
  | zero => intro r s; simp [stepRightBounded]
  | succ n ih =>
    intro r s
    simp only [stepRightBounded]
    split
    · have := ih (r + w) (evalf f r s).2
      linarith
    · exact le_refl _

lemma doubleStepUnbounded_self (v l : ℚ) :
    doubleStepUnbounded v l l = (l, l) := by
  unfold doubleStepUnbounded
  split <;> norm_num

/-- Once the unbounded doubling loop has collapsed the bracket to a point
with density above the slice, it never terminates (the counter grows until
the fuel runs out). -/
lemma doubleLoopUnbounded_collapse (us : ℕ → ℚ) (f : ℚ → ℚ) (y : ℚ) :
    ∀ (fuel : ℕ) (l : ℚ) (s : SamplerState), y < f l →
      (doubleLoopUnbounded us f y fuel l l s).1 = none := by
  intro fuel
  induction fuel with
  | zero => intro l s h; simp [doubleLoopUnbounded]
  | succ n ih =>
    intro l s h
    simp only [doubleLoopUnbounded]
    rw [if_pos (by simpa [evalf] using h), if_pos (by simpa [evalf] using h)]
    rw [doubleStepUnbounded_self]
    exact ih _ _ h

lemma doubleLoopUnbounded_contains (us : ℕ → ℚ) (f : ℚ → ℚ) (y x : ℚ) :
    ∀ (fuel : ℕ) (l r : ℚ) (s : SamplerState) (l' r' : ℚ)
      (s' : SamplerState), l ≤ x → x ≤ r →
      doubleLoopUnbounded us f y fuel l r s = (some (l', r'), s') →
      l' ≤ x ∧ x ≤ r' := by
  intro fuel
  induction fuel with
  | zero => intro l r s l' r' s' hl hr h; simp [doubleLoopUnbounded] at h
  | succ n ih =>
    intro l r s l' r' s' hl hr h
    simp only [doubleLoopUnbounded] at h
    split at h
    next hfl =>
      split at h
      next hfr =>
        by_cases hv : (draw us (evalf f r (evalf f l s).2).2).1 < 1 / 2
        · rw [show doubleStepUnbounded
              (draw us (evalf f r (evalf f l s).2).2).1 l r
              = (l - (r - l), r) from if_pos hv] at h
          exact ih _ _ _ _ _ _
            (show l - (r - l) ≤ x by linarith [hl.trans hr]) hr h
        · rw [show doubleStepUnbounded
              (draw us (evalf f r (evalf f l s).2).2).1 l r
              = (l, r - (r - l)) from if_neg hv] at h
          have hrl : r - (r - l) = l := by ring
          rw [hrl] at h
          have hnone := doubleLoopUnbounded_collapse us f y n l
            (draw us (evalf f r (evalf f l s).2).2).2
            (by simpa [evalf] using hfl)
          rw [h] at hnone
          simp at hnone
      next hfr =>
        injection h with h1 h2
        injection h1 with h1
        injection h1 with e1 e2
        subst e1
        subst e2
        exact ⟨hl, hr⟩
    next hfl =>
      injection h with h1 h2
      injection h1 with h1
      injection h1 with e1 e2
      subst e1
      subst e2
      exact ⟨hl, hr⟩

lemma doubleStepBounded_contains {x l r : ℚ} (v : ℚ) (hl : l ≤ x)
    (hr : x ≤ r) :
    (doubleStepBounded v l r).1 ≤ x ∧ x ≤ (doubleStepBounded v l r).2 := by
  have hlr : l ≤ r := hl.trans hr
  unfold doubleStepBounded
  split
  · exact ⟨show l - (r - l) ≤ x by linarith, hr⟩
  · exact ⟨hl, show x ≤ r + (r - l) by linarith⟩

lemma doubleLoopBounded_contains (us : ℕ → ℚ) (f : ℚ → ℚ) (y x : ℚ) :
    ∀ (k : ℕ) (l r : ℚ) (s : SamplerState), l ≤ x → x ≤ r →
      ((doubleLoopBounded us f y k l r s).1).1 ≤ x
        ∧ x ≤ ((doubleLoopBounded us f y k l r s).1).2 := by
  intro k
  induction k with
  | zero => intro l r s hl hr; simpa [doubleLoopBounded] using ⟨hl, hr⟩
  | succ n ih =>
    intro l r s hl hr
    simp only [doubleLoopBounded]
    repeat' split
    all_goals
      first
      | exact ⟨hl, hr⟩
      | exact ih _ _ _ (doubleStepBounded_contains _ hl hr).1
          (doubleStepBounded_contains _ hl hr).2

lemma steppingUnbounded_inbr {us : ℕ → ℚ} {f : ℚ → ℚ} {x y w l r : ℚ}
    {s : SamplerState} {fuel : ℕ} (hw : 0 ≤ w) (hl : l ≤ x) (hr : x ≤ r)
    (h : InBr x s) : InBr x (steppingUnbounded us f x y w l r s fuel).2 := by
  simp only [steppingUnbounded]
  split
  next s1 heq =>
    have hbr : s1.brackets = s.brackets := by
      have := brackets_stepLeftLoop f y w fuel l s
      rw [heq] at this
      exact this
    exact inBr_of_brackets_eq hbr h
  next l' s1 heq =>
    have hbr1 : s1.brackets = s.brackets := by
      have := brackets_stepLeftLoop f y w fuel l s
      rw [heq] at this
      exact this
    have hl' : l' ≤ x := (stepLeftLoop_le f y w hw fuel l s l' s1 heq).trans hl
    split
    next s2 heq2 =>
      have hbr2 : s2.brackets = s1.brackets := by
        have := brackets_stepRightLoop f y w fuel r s1
        rw [heq2] at this
        exact this
      exact inBr_of_brackets_eq hbr2 (inBr_of_brackets_eq hbr1 h)
    next r' s2 heq2 =>
      have hbr2 : s2.brackets = s1.brackets := by
        have := brackets_stepRightLoop f y w fuel r s1
        rw [heq2] at this
        exact this
      have hr' : x ≤ r' := hr.trans (stepRightLoop_ge f y w hw fuel r s1 r'
        s2 heq2)
      exact shrinkLoop_inbr us f x y fuel l' r' s2 hl' hr'
        (inBr_of_brackets_eq hbr2 (inBr_of_brackets_eq hbr1 h))

lemma steppingBounded_inbr {us : ℕ → ℚ} {f : ℚ → ℚ} {x y w : ℚ} {m : ℕ}
    {l r : ℚ} {s : SamplerState} {fuel : ℕ} (hw : 0 ≤ w) (hl : l ≤ x)
    (hr : x ≤ r) (h : InBr x s) :
    InBr x (steppingBounded us f x y w m l r s fuel).2 := by
  simp only [steppingBounded]
  have hl' : (stepLeftBounded f y w
      (leftBudget (draw us s).1 m) l (draw us s).2).1 ≤ x :=
    (stepLeftBounded_le f y w hw _ l _).trans hl
  have hr' : x ≤ (stepRightBounded f y w
      (u32Sub (u32Sub m 1) (leftBudget (draw us s).1 m)) r
      (stepLeftBounded f y w (leftBudget (draw us s).1 m) l
        (draw us s).2).2).1 :=
    hr.trans (stepRightBounded_ge f y w hw _ r _)
  exact shrinkLoop_inbr us f x y fuel _ _ _ hl' hr'
    (inBr_of_brackets_eq (by rw [brackets_stepRightBounded,
      brackets_stepLeftBounded]; rfl) h)

lemma initial_bracket_contains {x w u2 : ℚ} (hw : 0 < w) (h0 : 0 ≤ u2)
    (h1 : u2 < 1) : x - u2 * w ≤ x ∧ x ≤ x - u2 * w + w := by
  constructor
  · nlinarith
  · nlinarith

lemma steppingRestUniv_inbr {us : ℕ → ℚ} {f : ℚ → ℚ} {x y w : ℚ} {m : ℕ}
    {s : SamplerState} {fuel : ℕ} (hus : ∀ n, 0 ≤ us n ∧ us n < 1)
    (hw : 0 < w) (h : InBr x s) :
    InBr x (steppingRestUniv us f x y w m s fuel).2 := by
  simp only [steppingRestUniv]
  obtain ⟨hl, hr⟩ := initial_bracket_contains hw (hus s.idx).1 (hus s.idx).2
  have h' : InBr x (draw us s).2 := inBr_of_brackets_eq rfl h
  split
  · exact steppingUnbounded_inbr (le_of_lt hw) hl hr h'
  · split
    · exact shrinkLoop_inbr us f x y fuel _ _ _ hl hr h'
    · exact steppingBounded_inbr (le_of_lt hw) hl hr h'

lemma doublingRest_inbr {us : ℕ → ℚ} {f : ℚ → ℚ} {x y w : ℚ} {md : ℕ}
    {s : SamplerState} {fuel : ℕ} (hus : ∀ n, 0 ≤ us n ∧ us n < 1)
    (hw : 0 < w) (h : InBr x s) :
    InBr x (doublingRest us f x y w md s fuel).2 := by
  simp only [doublingRest]
  obtain ⟨hl, hr⟩ := initial_bracket_contains hw (hus s.idx).1 (hus s.idx).2
  have hl2 : x - (draw us s).1 * w ≤ x := hl
  have hr2 : x ≤ x - (draw us s).1 * w + w := hr
  have h' : InBr x (draw us s).2 := inBr_of_brackets_eq rfl h
  split
  · split
    next s2 heq =>
      have hbr : s2.brackets = (draw us s).2.brackets := by
        have h3 := brackets_doubleLoopUnbounded us f y fuel
          (x - (draw us s).1 * w) (x - (draw us s).1 * w + w) (draw us s).2
        rw [heq] at h3
        exact h3
      exact inBr_of_brackets_eq hbr h'
    next l' r' s2 heq =>
      obtain ⟨hl', hr'⟩ := doubleLoopUnbounded_contains us f y x fuel _ _ _
        _ _ _ hl2 hr2 heq
      have hbr : s2.brackets = (draw us s).2.brackets := by
        have h3 := brackets_doubleLoopUnbounded us f y fuel
          (x - (draw us s).1 * w) (x - (draw us s).1 * w + w) (draw us s).2
        rw [heq] at h3
        exact h3
      exact doublingShrinkLoop_inbr us f w x y fuel fuel l' r' s2 hl' hr'
        (inBr_of_brackets_eq hbr h')
  · split
    · exact doublingShrinkLoop_inbr us f w x y fuel fuel _ _ _ hl2 hr2 h'
    · rcases hDB : doubleLoopBounded us f y md (x - (draw us s).1 * w)
        (x - (draw us s).1 * w + w) (draw us s).2 with ⟨⟨l2, r2⟩, s2⟩
      have hcont := doubleLoopBounded_contains us f y x md
        (x - (draw us s).1 * w) (x - (draw us s).1 * w + w) (draw us s).2
        hl2 hr2
      rw [hDB] at hcont
      have hbr : s2.brackets = (draw us s).2.brackets := by
        have h3 := brackets_doubleLoopBounded us f y md
          (x - (draw us s).1 * w) (x - (draw us s).1 * w + w) (draw us s).2
        rw [hDB] at h3
        exact h3
      exact doublingShrinkLoop_inbr us f w x y fuel fuel l2 r2 s2 hcont.1
        hcont.2 (inBr_of_brackets_eq hbr h')

/-- C3: bracket containment.  Provided every RNG draw lies in `[0, 1)` (the
contract of the uniform RNG capability), the invariant `l ≤ x ≤ r` holds at
the entry of every iteration of the shrinkage loop, before the candidate
draw, for the stepping-out and doubling procedures; for the direct-shrinkage
procedure it holds under the precondition `left ≤ x ≤ right`.  The ghost
field `brackets` records the bracket at each shrinkage-iteration entry, so
the statement quantifies over every recorded iteration of any (also
truncated) run. -/
theorem bracket_containment_before_each_draw (x : ℚ) (f : ℚ → ℚ)
    (onLogScale : Bool) (lnFn : ℚ → ℚ) (iw : ℚ) (m md : ℕ)
    (left right : ℚ) (us : ℕ → ℚ) (fuel : ℕ)
    (hus : ∀ n, 0 ≤ us n ∧ us n < 1) :
    InBr x (univariate_slice_sampler_stepping_out_and_shrinkage x f
      onLogScale lnFn iw m us fuel).2
    ∧ InBr x (univariate_slice_sampler_doubling_and_shrinkage x f onLogScale
      lnFn iw md us fuel).2
    ∧ (left ≤ x → x ≤ right →
        InBr x (univariate_slice_sampler_shrinkage x f onLogScale lnFn left
          right us fuel).2) := by
  refine ⟨?_, ?_, ?_⟩
  · exact steppingRestUniv_inbr hus (clampWidth_pos iw)
      (inBr_of_brackets_eq rfl (inBr_initState x))
  · exact doublingRest_inbr hus (clampWidth_pos iw)
      (inBr_of_brackets_eq rfl (inBr_initState x))
  · intro hleft hright
    exact shrinkLoop_inbr us f x _ fuel left right _ hleft hright
      (inBr_of_brackets_eq rfl (inBr_initState x))

/-- Witness for `bracket_containment_before_each_draw`: a concrete run of
the direct-shrinkage procedure whose single recorded bracket `(-1, 1)`
contains `x = 0`. -/
theorem bracket_containment_before_each_draw_witness :
    (-1 : ℚ) ≤ 0 ∧ (0 : ℚ) ≤ 1 :=
  (bracket_containment_before_each_draw 0 (fun _ => 1) false id 1 1 1 (-1) 1
      (fun _ => 1 / 2) 1 (fun n => by norm_num)).2.2 (by norm_num)
    (by norm_num) ((-1 : ℚ), (1 : ℚ)) (by
      norm_num [univariate_slice_sampler_shrinkage, shrinkLoop, draw, evalf,
        pushBracket, initState])
